import Mathlib

/-!
# CougarWise financial analytics — shallow embedding

This file embeds the computational core of the CougarWise frontend
(`src/frontend/src/pages/Dashboard.js`, `Analysis.js`, `AIAssistant.js`,
`src/frontend/src/context/AuthContext.js`) in Lean 4 and proves or refutes
the specification's claims about it.

Modelling conventions:
* JavaScript strings are modelled as lists of Unicode code points
  (`JSStr := List ℕ`); `String.prototype.trim` and `toLowerCase` are
  modelled on the ASCII range that the category labels use.
* JavaScript numbers are modelled as exact rationals `ℚ`; where a code path
  can produce `Infinity`/`NaN` (division by zero), the extended type `JNum`
  with explicit `posInf`/`negInf`/`nan` constructors is used, mirroring
  IEEE-754 special-value propagation through the `Math` functions involved.
  `Math.round x` is `⌊x + 1/2⌋` (JS rounds half toward +∞), `Math.ceil` is
  `⌈·⌉`.
* JavaScript objects used as category→amount maps are modelled as
  association lists in key-insertion order (`List (JSStr × ℚ)`), which is
  the enumeration order of string-keyed JS objects.
* Calendar months are modelled by their absolute month index
  `12 * fullYear + monthOfYear : ℤ`; two dates have equal `(getMonth(),
  getFullYear())` pairs exactly when their absolute indices are equal.
-/

/-- A JavaScript string as its list of Unicode code points. -/
abbrev JSStr := List ℕ

/-- Code points of a Lean string literal, for writing JS string constants. -/
def str (s : String) : JSStr := s.data.map Char.toNat

/-- One code point of `String.prototype.toLowerCase` (ASCII range: `A`-`Z`
map to `a`-`z`, everything else is unchanged). -/
def lowerCP (c : ℕ) : ℕ := if 65 ≤ c ∧ c ≤ 90 then c + 32 else c

/-- `String.prototype.toLowerCase`. -/
def jsToLower (s : JSStr) : JSStr := s.map lowerCP

/-- The whitespace code points `String.prototype.trim` removes (ASCII
whitespace plus NBSP; the category labels only involve these). -/
def isWS (c : ℕ) : Bool := c == 9 || c == 10 || c == 11 || c == 12 || c == 13 || c == 32 || c == 160

/-- `String.prototype.trim`: drop leading and trailing whitespace. -/
def jsTrim (s : JSStr) : JSStr := ((s.dropWhile isWS).reverse.dropWhile isWS).reverse

/-- `category.trim().toLowerCase()` — the normalization applied by
`Analysis.js` before comparing with `'income'` and before using a category
as a breakdown key. -/
def normalizeCat (s : JSStr) : JSStr := jsToLower (jsTrim s)

/-- JS `x || defaultString` on an optional string: `undefined`/`null` and
the empty string are falsy and replaced by the default. -/
def jsOrDefault (c : Option JSStr) (d : JSStr) : JSStr :=
  match c with
  | none => d
  | some s => if s = [] then d else s

/-- A JavaScript number outcome: a finite (rational) value or one of the
IEEE-754 special values that the modelled code paths can produce. -/
inductive JNum where
  | fin : ℚ → JNum
  | posInf : JNum
  | negInf : JNum
  | nan : JNum
deriving DecidableEq, Repr

/-- JS division `a / b`: finite for `b ≠ 0`; `±Infinity` for `a ≠ 0, b = 0`
(sign of `a`, with `b = +0`); `NaN` for `0 / 0`. -/
def jsDiv (a b : ℚ) : JNum :=
  if b ≠ 0 then .fin (a / b)
  else if 0 < a then .posInf
  else if a < 0 then .negInf
  else .nan

/-- Multiplication of a JS value by the positive literal `100` (the only
constant the modelled code multiplies by): infinities keep their sign. -/
def jsMul100 (x : JNum) : JNum :=
  match x with
  | .fin q => .fin (q * 100)
  | .posInf => .posInf
  | .negInf => .negInf
  | .nan => .nan

/-- `Math.round`: nearest integer, half toward `+∞`; special values pass
through. -/
def jsRound (x : JNum) : JNum :=
  match x with
  | .fin q => .fin ((⌊q + 1/2⌋ : ℤ) : ℚ)
  | .posInf => .posInf
  | .negInf => .negInf
  | .nan => .nan

/-- `Math.ceil`; special values pass through. -/
def jsCeil (x : JNum) : JNum :=
  match x with
  | .fin q => .fin ((⌈q⌉ : ℤ) : ℚ)
  | .posInf => .posInf
  | .negInf => .negInf
  | .nan => .nan

/-- `Math.min(c, x)` for a finite constant `c`: `min` with `+∞` is `c`,
with `-∞` is `-∞`, and `NaN` propagates. -/
def jsMin (c : ℚ) (x : JNum) : JNum :=
  match x with
  | .fin q => .fin (min c q)
  | .posInf => .fin c
  | .negInf => .negInf
  | .nan => .nan

/-- JS comparison `x > c` for a finite constant `c` (`NaN > c` is false). -/
def jsGtConst (x : JNum) (c : ℚ) : Bool :=
  match x with
  | .fin q => decide (c < q)
  | .posInf => true
  | .negInf => false
  | .nan => false

/-- `Number.isFinite`. -/
def jsIsFinite (x : JNum) : Bool :=
  match x with
  | .fin _ => true
  | _ => false

/-- A transaction record as the frontend receives it. `category` and
`type` are `none` when the field is absent (`undefined`); `date` is the
absolute month index of the transaction's date, `none` when missing. -/
structure Transaction where
  amount : ℚ
  category : Option JSStr
  type : Option JSStr
  date : Option ℤ
deriving DecidableEq, Repr

/-! ## Association-list model of JS string-keyed objects -/

/-- The JS pattern `if (!acc[k]) acc[k] = 0; acc[k] += v` (equivalently
`acc[k] ? acc[k] + v : v`): update an existing key in place, or append a
new key at the end, preserving JS object key-insertion order. -/
def upsert (m : List (JSStr × ℚ)) (k : JSStr) (v : ℚ) : List (JSStr × ℚ) :=
  match m with
  | [] => [(k, v)]
  | (k', v') :: rest => if k' = k then (k', v' + v) :: rest else (k', v') :: upsert rest k v

/-- `Object.values(m)` summed. -/
def sumValues (m : List (JSStr × ℚ)) : ℚ := (m.map Prod.snd).sum

/-- `m[k]` as an option (`undefined` for an absent key). -/
def lookupVal (m : List (JSStr × ℚ)) (k : JSStr) : Option ℚ :=
  (m.find? (fun p => p.1 == k)).map Prod.snd

/-- `delete m[k]`. -/
def eraseKey (m : List (JSStr × ℚ)) (k : JSStr) : List (JSStr × ℚ) :=
  m.filter (fun p => !(p.1 == k))

/-- Truthiness of `m[k]`: present and a nonzero number. -/
def truthyLookup (m : List (JSStr × ℚ)) (k : JSStr) : Bool :=
  match lookupVal m k with
  | some v => decide (v ≠ 0)
  | none => false

/-! ## Dashboard.js — `fetchDashboardData` manual aggregation

Embeds the client-side aggregation of `fetchDashboardData`
(`Dashboard.js` lines 119–175) on the path where the analysis API supplied
no data (`analysisData` nullish), so the component computes everything
from the raw transaction list. -/

/-- `'Uncategorized'`. -/
def uncategorizedLabel : JSStr := str "Uncategorized"

/-- `'No Categories'`. -/
def noCategoriesLabel : JSStr := str "No Categories"

/-- `'income'`. -/
def incomeLabel : JSStr := str "income"

/-- `expenseTransactions.reduce((total, t) => total + Math.abs(t.amount), 0)`
over `transactionsData.filter(t => t.amount < 0)`: total spending is the
sum of absolute amounts of the negative-amount transactions. -/
def dashTotalSpending (ts : List Transaction) : ℚ :=
  (ts.filter (fun t => decide (t.amount < 0))).foldl (fun total t => total + |t.amount|) 0

/-- One step of the `transactionsData.forEach` that builds the manual
category breakdown: skip `amount >= 0`; otherwise accumulate
`Math.abs(amount)` under the raw (defaulted) category, provided the
category is truthy and does not trim to the empty string. -/
def dashStep (m : List (JSStr × ℚ)) (t : Transaction) : List (JSStr × ℚ) :=
  if 0 ≤ t.amount then m
  else
    let category := jsOrDefault t.category uncategorizedLabel
    if category ≠ [] ∧ jsTrim category ≠ [] then upsert m category |t.amount| else m

/-- The manually built `categoryBreakdown` object. -/
def dashBreakdownRaw (ts : List Transaction) : List (JSStr × ℚ) :=
  ts.foldl dashStep []

/-- The `category_breakdown` passed to `setAnalysis`: the manual breakdown
when nonempty, otherwise the `{'No Categories': 0}` placeholder when any
transactions exist, otherwise the empty object. -/
def dashCategoryBreakdown (ts : List Transaction) : List (JSStr × ℚ) :=
  let manual := dashBreakdownRaw ts
  if manual ≠ [] then manual
  else if ts ≠ [] then [(noCategoriesLabel, 0)] else []

/-- The `(total_spending, category_breakdown)` pair passed to
`setAnalysis` (API data absent, so `calculatedTotalSpending || 0` is just
the calculated value). -/
def dashAnalysis (ts : List Transaction) : ℚ × List (JSStr × ℚ) :=
  (dashTotalSpending ts, dashCategoryBreakdown ts)

/-- The fixed, exact-cased label list of the Dashboard income-filter
`useEffect` (lines 188–214). -/
def incomeCategoryLabels : List JSStr :=
  [str "Income", str "Salary", str "Wages", str "Dividend", str "Interest", str "Gift", str "Refund"]

/-- The income-filter `useEffect`: for each listed label, delete the key
from the breakdown — but only when its current value is truthy
(`if (filteredBreakdown[category])`). -/
def filterIncome (m : List (JSStr × ℚ)) : List (JSStr × ℚ) :=
  incomeCategoryLabels.foldl (fun acc c => if truthyLookup acc c then eraseKey acc c else acc) m

/-! ## Analysis.js — `prepareChartData` -/

/-- The filter of the `expensesByCategory` reduction (`Analysis.js` lines
196–203): the category must be a string whose normalization differs from
`'income'`, and the transaction must have a nonzero amount or
`type === 'expense'`. -/
def analysisKeeps (t : Transaction) : Bool :=
  match t.category with
  | none => false
  | some c =>
    decide (normalizeCat c ≠ incomeLabel) &&
      (decide (0 < t.amount) || decide (t.amount < 0) || decide (t.type = some (str "expense")))

/-- The breakdown key `transaction.category?.trim().toLowerCase() || 'uncategorized'`
(inside the reduce the category is known to be a string). -/
def analysisKey (c : JSStr) : JSStr :=
  if normalizeCat c = [] then str "uncategorized" else normalizeCat c

/-- `expensesByCategory`: accumulate `Math.abs(amount)` under the
normalized category key, over the transactions the filter keeps. -/
def expensesByCategory (ts : List Transaction) : List (JSStr × ℚ) :=
  (ts.filter analysisKeeps).foldl
    (fun acc t => upsert acc (analysisKey (t.category.getD [])) |t.amount|) []

/-- `transaction.category?.trim().toLowerCase() === 'income'` — the income
test of the monthly-totals loop (`undefined === 'income'` is false). -/
def isIncomeTx (t : Transaction) : Bool :=
  match t.category with
  | some c => decide (normalizeCat c = incomeLabel)
  | none => false

/-- The twelve chart month labels, oldest first: the months
`now-11 … now` (as absolute month indices — the short `'Mon YY'` label of
`toLocaleString` denotes exactly this month/year pair). -/
def monthsList (now : ℤ) : List ℤ :=
  (List.range 12).map (fun i : ℕ => now - 11 + (i : ℤ))

/-- `months.findIndex(...)`: the label match succeeds exactly when the
transaction's `(getMonth(), getFullYear())` pair — i.e. its absolute month
index `m` — falls in the window `now-11 … now`, at the offset of that
month from the oldest label (the parse of `'Mon YY'` back to a month/year
is the identity on this window). -/
def monthIndexOf (now m : ℤ) : Option ℕ :=
  if now - 11 ≤ m ∧ m ≤ now then some (m - (now - 11)).toNat else none

/-- The `monthlyData` accumulator `{income: [...], expenses: [...],
savings: [...]}` of twelve zeros each. -/
structure MonthlyData where
  income : List ℚ
  expenses : List ℚ
  savings : List ℚ
deriving DecidableEq, Repr

/-- One step of the `transactions.forEach` building `monthlyData`: a
missing date defaults to `new Date()` (the current month); when the month
is one of the twelve labels, add `Math.abs(amount)` to the `savings` entry
for an income-category transaction and to the `expenses` entry otherwise.
(The `income` array is never written.) -/
def monthlyStep (now : ℤ) (acc : MonthlyData) (t : Transaction) : MonthlyData :=
  let m := t.date.getD now
  match monthIndexOf now m with
  | none => acc
  | some j =>
    if isIncomeTx t then
      { acc with savings := acc.savings.set j (acc.savings.getD j 0 + |t.amount|) }
    else
      { acc with expenses := acc.expenses.set j (acc.expenses.getD j 0 + |t.amount|) }

/-- `monthlyData` after the `forEach` (`Analysis.js` lines 238–275): the
per-month series backing the `Expenses` and `Savings` chart datasets. -/
def monthlyTotals (now : ℤ) (ts : List Transaction) : MonthlyData :=
  ts.foldl (monthlyStep now)
    ⟨List.replicate 12 0, List.replicate 12 0, List.replicate 12 0⟩

/-! ## AIAssistant.js — `fetchFinancialData` -/

/-- `transactions.filter(t => t.type === 'income').reduce((s, t) => s + t.amount, 0)`. -/
def aiIncomeTotal (ts : List Transaction) : ℚ :=
  (ts.filter (fun t => decide (t.type = some (str "income")))).foldl (fun s t => s + t.amount) 0

/-- `transactions.filter(t => t.type === 'expense').reduce((s, t) => s + t.amount, 0)`. -/
def aiExpensesTotal (ts : List Transaction) : ℚ :=
  (ts.filter (fun t => decide (t.type = some (str "expense")))).foldl (fun s t => s + t.amount) 0

/-- `monthlySavings = income - expenses`. -/
def aiMonthlySavings (ts : List Transaction) : ℚ :=
  aiIncomeTotal ts - aiExpensesTotal ts

/-- The per-budget `percentage` of `budgetUtilization`:
`budget.amount > 0 ? (spent / budget.amount) * 100 : 0` — unrounded and
unclamped. -/
def aiBudgetPercentage (spent amount : ℚ) : ℚ :=
  if 0 < amount then spent / amount * 100 else 0

/-- The per-goal `progress` of `goalDetails`:
`Math.round((currentAmount / targetAmount) * 100)` — unclamped. -/
def aiGoalProgress (currentAmount targetAmount : ℚ) : JNum :=
  jsRound (jsMul100 (jsDiv currentAmount targetAmount))

/-- The reported months-remaining value: a number or the `'unknown'`
string sentinel. -/
inductive MonthsRemaining where
  | num : ℚ → MonthsRemaining
  | unknownSentinel : MonthsRemaining
deriving DecidableEq, Repr

/-- `monthlySavings > 0 ? Math.ceil((targetAmount - currentAmount) / monthlySavings) : Infinity`. -/
def timeRemainingRaw (targetAmount currentAmount monthlySavings : ℚ) : JNum :=
  if 0 < monthlySavings then jsCeil (jsDiv (targetAmount - currentAmount) monthlySavings)
  else .posInf

/-- `isFinite(timeRemaining) ? timeRemaining : 'unknown'` — the
`timeRemaining` field of `goalDetails`. -/
def goalTimeRemaining (targetAmount currentAmount monthlySavings : ℚ) : MonthsRemaining :=
  match timeRemainingRaw targetAmount currentAmount monthlySavings with
  | .fin q => .num q
  | _ => .unknownSentinel

/-! ## AuthContext.js Goals page and Dashboard.js Budget page -/

/-- `calculateProgress` (`AuthContext.js` line 462):
`Math.min(100, Math.round((goal.currentAmount / goal.targetAmount) * 100))`. -/
def calculateProgress (currentAmount targetAmount : ℚ) : JNum :=
  jsMin 100 (jsRound (jsMul100 (jsDiv currentAmount targetAmount)))

/-- `calculateUsage` (`Dashboard.js` lines 1167–1171):
`if (!budget.spent) return 0; return Math.min(100, Math.round((budget.spent / budget.amount) * 100))`.
A falsy `spent` (absent or `0`) short-circuits to `0`; the division is
performed unguarded otherwise, so `budget.amount = 0` produces `±Infinity`
inside the `Math` pipeline. -/
def calculateUsage (spent amount : ℚ) : JNum :=
  if spent = 0 then .fin 0
  else jsMin 100 (jsRound (jsMul100 (jsDiv spent amount)))

/-- The `LinearProgress` bar color (`Dashboard.js` lines 1244–1248):
`usage > 85 ? 'error.main' : usage > 70 ? 'warning.main' : 'success.main'`. -/
def barColor (usage : JNum) : String :=
  if jsGtConst usage 85 then "error.main"
  else if jsGtConst usage 70 then "warning.main"
  else "success.main"

/-- Modelled from the spec: the `status` rule of §4.3 — `"ok"` for
`percentage < 70`, `"warning"` for `70 ≤ percentage < 85`, `"over"` for
`percentage ≥ 85`. The source has no such status field; this definition
exists only to compare the spec's boundaries with the progress-bar color
logic. -/
def specStatus (percentage : ℚ) : String :=
  if percentage < 70 then "ok"
  else if percentage < 85 then "warning"
  else "over"

/-! ## String-normalization lemmas -/

theorem lowerCP_idem (c : ℕ) : lowerCP (lowerCP c) = lowerCP c := by
  by_cases h : 65 ≤ c ∧ c ≤ 90
  · have h1 : lowerCP c = c + 32 := if_pos h
    rw [h1]
    exact if_neg (by omega)
  · have h1 : lowerCP c = c := if_neg h
    rw [h1]
    exact h1

theorem isWS_false_of_letter (x : ℕ) (h1 : 65 ≤ x) (h2 : x ≤ 122) : isWS x = false := by
  simp only [isWS, Bool.or_eq_false_iff, beq_eq_false_iff_ne, ne_eq]
  omega

theorem isWS_lowerCP (c : ℕ) : isWS (lowerCP c) = isWS c := by
  by_cases h : 65 ≤ c ∧ c ≤ 90
  · have h1 : lowerCP c = c + 32 := if_pos h
    rw [h1, isWS_false_of_letter (c + 32) (by omega) (by omega),
      isWS_false_of_letter c (by omega) (by omega)]
  · have h1 : lowerCP c = c := if_neg h
    rw [h1]

theorem jsToLower_idem (s : JSStr) : jsToLower (jsToLower s) = jsToLower s := by
  simp only [jsToLower, List.map_map]
  exact List.map_congr_left (fun a _ => lowerCP_idem a)

theorem jsTrim_jsToLower (s : JSStr) : jsTrim (jsToLower s) = jsToLower (jsTrim s) := by
  have hws : (isWS ∘ lowerCP) = isWS := funext isWS_lowerCP
  simp only [jsTrim, jsToLower, List.dropWhile_map, hws, ← List.map_reverse]

theorem dropWhile_head_not (l : JSStr) (h : l.dropWhile isWS = l) :
    l.dropWhile isWS = l ∧ ∀ c l', l = c :: l' → isWS c = false := by
  refine ⟨h, fun c l' hc => ?_⟩
  subst hc
  by_contra hws
  have hws' : isWS c = true := by
    cases hif : isWS c
    · exact absurd hif hws
    · rfl
  rw [List.dropWhile_cons, if_pos hws'] at h
  have hsuf : l'.dropWhile isWS <:+ l' := List.dropWhile_suffix isWS
  have hlen : (l'.dropWhile isWS).length ≤ l'.length := hsuf.length_le
  rw [h] at hlen
  simp at hlen

theorem trimRight_keeps_trimLeft (a : JSStr) (ha : a.dropWhile isWS = a) :
    ((a.reverse.dropWhile isWS).reverse).dropWhile isWS = (a.reverse.dropWhile isWS).reverse := by
  set b := a.reverse.dropWhile isWS with hb
  have hsuf : b <:+ a.reverse := List.dropWhile_suffix isWS
  have hpre : b.reverse <+: a := by
    have h := (@List.reverse_suffix _ b.reverse a).mp
    apply h
    rw [List.reverse_reverse]
    exact hsuf
  obtain ⟨u, hu⟩ := hpre
  cases hbr : b.reverse with
  | nil => simp
  | cons c d =>
    rw [hbr] at hu
    cases a with
    | nil => simp at hu
    | cons h t =>
      have hc : c = h := by
        have := hu
        simp only [List.cons_append] at this
        exact (List.cons_eq_cons.mp this).1
      have hh : isWS h = false := (dropWhile_head_not (h :: t) ha).2 h t rfl
      rw [List.dropWhile_cons, hc, hh]
      simp

theorem jsTrim_idem (s : JSStr) : jsTrim (jsTrim s) = jsTrim s := by
  unfold jsTrim
  set a := s.dropWhile isWS with hadef
  have ha : a.dropWhile isWS = a := List.dropWhile_idempotent isWS s
  rw [trimRight_keeps_trimLeft a ha, List.reverse_reverse, List.dropWhile_idempotent]

theorem normalizeCat_idem (s : JSStr) : normalizeCat (normalizeCat s) = normalizeCat s := by
  unfold normalizeCat
  rw [jsTrim_jsToLower, jsTrim_idem, jsToLower_idem]

/-! ## Association-list lemmas -/

theorem sumValues_nil : sumValues [] = 0 := rfl

theorem sumValues_cons (p : JSStr × ℚ) (l : List (JSStr × ℚ)) :
    sumValues (p :: l) = p.2 + sumValues l := by
  simp [sumValues]

theorem sumValues_upsert (m : List (JSStr × ℚ)) (k : JSStr) (v : ℚ) :
    sumValues (upsert m k v) = sumValues m + v := by
  induction m with
  | nil => simp [upsert, sumValues]
  | cons p rest ih =>
    obtain ⟨a, b⟩ := p
    by_cases h : a = k
    · simp only [upsert, if_pos h, sumValues_cons]
      ring
    · simp only [upsert, if_neg h, sumValues_cons, ih]
      ring

theorem mem_keys_upsert (m : List (JSStr × ℚ)) (k v : _) (k' : JSStr)
    (h : k' ∈ (upsert m k v).map Prod.fst) : k' ∈ m.map Prod.fst ∨ k' = k := by
  induction m with
  | nil =>
    simp [upsert] at h
    right
    exact h
  | cons p rest ih =>
    obtain ⟨a, b⟩ := p
    by_cases hk : a = k
    · simp only [upsert, if_pos hk, List.map_cons, List.mem_cons] at h
      rcases h with h | h
      · left; simp [h]
      · left; simp [h]
    · simp only [upsert, if_neg hk, List.map_cons, List.mem_cons] at h
      rcases h with h | h
      · left; simp [h]
      · rcases ih h with h2 | h2
        · left; simp [h2]
        · right; exact h2

theorem upsert_values_nonneg (m : List (JSStr × ℚ)) (k : JSStr) (v : ℚ)
    (hm : ∀ p ∈ m, 0 ≤ p.2) (hv : 0 ≤ v) : ∀ p ∈ upsert m k v, 0 ≤ p.2 := by
  induction m with
  | nil =>
    intro p hp
    simp [upsert] at hp
    simp [hp, hv]
  | cons q rest ih =>
    obtain ⟨a, b⟩ := q
    intro p hp
    by_cases hk : a = k
    · simp only [upsert, if_pos hk, List.mem_cons] at hp
      rcases hp with hp | hp
      · have hb : (0:ℚ) ≤ b := hm (a, b) (by simp)
        subst hp
        simpa using add_nonneg hb hv
      · exact hm p (by simp [hp])
    · simp only [upsert, if_neg hk, List.mem_cons] at hp
      rcases hp with hp | hp
      · subst hp
        exact hm (a, b) (by simp)
      · exact ih (fun q hq => hm q (by simp [hq])) p hp

/-! ## Fold-to-sum lemmas -/

theorem foldl_add_abs (l : List Transaction) (a : ℚ) :
    l.foldl (fun total t => total + |t.amount|) a = a + (l.map (fun t => |t.amount|)).sum := by
  induction l generalizing a with
  | nil => simp
  | cons t rest ih =>
    simp only [List.foldl_cons, List.map_cons, List.sum_cons, ih]
    ring

theorem dashTotalSpending_eq (ts : List Transaction) :
    dashTotalSpending ts =
      ((ts.filter (fun t => decide (t.amount < 0))).map (fun t => |t.amount|)).sum := by
  unfold dashTotalSpending
  rw [foldl_add_abs]
  ring

/-- Whether the Dashboard breakdown `forEach` actually accumulates a
transaction: negative amount and a category that survives the blankness
checks. -/
def dashKeeps (t : Transaction) : Bool :=
  decide (t.amount < 0) &&
    (decide (jsOrDefault t.category uncategorizedLabel ≠ []) &&
      decide (jsTrim (jsOrDefault t.category uncategorizedLabel) ≠ []))

theorem dash_foldl_sum (l : List Transaction) (acc : List (JSStr × ℚ)) :
    sumValues (l.foldl dashStep acc) =
      sumValues acc + ((l.filter dashKeeps).map (fun t => |t.amount|)).sum := by
  induction l generalizing acc with
  | nil => simp
  | cons t rest ih =>
    simp only [List.foldl_cons, List.filter_cons]
    by_cases hneg : 0 ≤ t.amount
    · have hk : dashKeeps t = false := by
        simp only [dashKeeps, Bool.and_eq_false_iff, decide_eq_false_iff_not, not_lt]
        left
        exact hneg
      have hstep : dashStep acc t = acc := if_pos hneg
      rw [hstep, hk, ih]
      simp
    · have hneg' : t.amount < 0 := lt_of_not_ge hneg
      by_cases hcat : jsOrDefault t.category uncategorizedLabel ≠ [] ∧
          jsTrim (jsOrDefault t.category uncategorizedLabel) ≠ []
      · have hk : dashKeeps t = true := by
          simp only [dashKeeps, Bool.and_eq_true, decide_eq_true_eq]
          exact ⟨hneg', hcat⟩
        have hstep : dashStep acc t = upsert acc (jsOrDefault t.category uncategorizedLabel) |t.amount| := by
          unfold dashStep
          rw [if_neg hneg, if_pos hcat]
        rw [hstep, hk, ih, sumValues_upsert]
        simp only [if_true, List.map_cons, List.sum_cons]
        ring
      · have hk : dashKeeps t = false := by
          simp only [dashKeeps, Bool.and_eq_false_iff, decide_eq_false_iff_not]
          rcases Decidable.not_and_iff_or_not.mp hcat with h | h
          · right; left; simpa using h
          · right; right; simpa using h
        have hstep : dashStep acc t = acc := by
          unfold dashStep
          rw [if_neg hneg, if_neg hcat]
        rw [hstep, hk, ih]
        simp

/-! ## Dashboard breakdown-sum invariant -/

theorem jsOrDefault_uncategorized_ne_nil (c : Option JSStr) :
    jsOrDefault c uncategorizedLabel ≠ [] := by
  cases c with
  | none =>
    simp [jsOrDefault, uncategorizedLabel, str]
  | some s =>
    by_cases h : s = []
    · simp [jsOrDefault, h, uncategorizedLabel, str]
    · simp [jsOrDefault, h]

theorem dash_sum_eq_total (ts : List Transaction)
    (h : ∀ t ∈ ts, t.amount < 0 → jsTrim (jsOrDefault t.category uncategorizedLabel) ≠ []) :
    sumValues (dashBreakdownRaw ts) = dashTotalSpending ts := by
  unfold dashBreakdownRaw
  rw [dash_foldl_sum, dashTotalSpending_eq, sumValues_nil]
  have hfil : ts.filter dashKeeps = ts.filter (fun t => decide (t.amount < 0)) := by
    apply List.filter_congr
    intro t ht
    by_cases hneg : t.amount < 0
    · have h1 := jsOrDefault_uncategorized_ne_nil t.category
      have h2 := h t ht hneg
      simp [dashKeeps, hneg, h1, h2]
    · simp [dashKeeps, hneg]
  rw [hfil]
  ring

/-! ## Analysis breakdown key and value invariants -/

theorem analysisKey_not_income (c : JSStr) (h : normalizeCat c ≠ incomeLabel) :
    normalizeCat (analysisKey c) ≠ incomeLabel := by
  unfold analysisKey
  by_cases h0 : normalizeCat c = []
  · rw [if_pos h0]
    decide
  · rw [if_neg h0, normalizeCat_idem]
    exact h

theorem expenses_foldl_keys (l : List Transaction) (acc : List (JSStr × ℚ))
    (hl : ∀ t ∈ l, analysisKeeps t = true)
    (hacc : ∀ k ∈ acc.map Prod.fst, normalizeCat k ≠ incomeLabel) :
    ∀ k ∈ ((l.foldl
        (fun acc t => upsert acc (analysisKey (t.category.getD [])) |t.amount|) acc).map Prod.fst),
      normalizeCat k ≠ incomeLabel := by
  induction l generalizing acc with
  | nil => exact hacc
  | cons t rest ih =>
    rw [List.foldl_cons]
    apply ih
    · intro u hu
      exact hl u (by simp [hu])
    · intro k hk
      rcases mem_keys_upsert acc (analysisKey (t.category.getD [])) |t.amount| k hk with h1 | h1
      · exact hacc k h1
      · subst h1
        have hkeep : analysisKeeps t = true := hl t (by simp)
        unfold analysisKeeps at hkeep
        cases hcat : t.category with
        | none => rw [hcat] at hkeep; simp at hkeep
        | some c =>
          rw [hcat] at hkeep
          simp only [Bool.and_eq_true, decide_eq_true_eq] at hkeep
          simpa using analysisKey_not_income c hkeep.1

theorem expensesByCategory_keys (ts : List Transaction) :
    ∀ k ∈ (expensesByCategory ts).map Prod.fst, normalizeCat k ≠ incomeLabel := by
  unfold expensesByCategory
  apply expenses_foldl_keys
  · intro t ht
    exact (List.mem_filter.mp ht).2
  · intro k hk
    simp at hk

theorem upsert_foldl_values_nonneg (l : List Transaction) (acc : List (JSStr × ℚ))
    (key : Transaction → JSStr)
    (hacc : ∀ p ∈ acc, 0 ≤ p.2) :
    ∀ p ∈ (l.foldl (fun acc t => upsert acc (key t) |t.amount|) acc), 0 ≤ p.2 := by
  induction l generalizing acc with
  | nil => exact hacc
  | cons t rest ih =>
    rw [List.foldl_cons]
    exact ih _ (upsert_values_nonneg acc (key t) |t.amount| hacc (abs_nonneg _))

/-! ## Monthly-series lemmas -/

theorem getD_set_self (l : List ℚ) (i : ℕ) (x : ℚ) (h : i < l.length) :
    (l.set i x).getD i 0 = x := by
  rw [List.getD_eq_getElem?_getD, List.getElem?_set, if_pos rfl, if_pos h]
  rfl

theorem getD_set_other (l : List ℚ) (i j : ℕ) (x : ℚ) (h : i ≠ j) :
    (l.set i x).getD j 0 = l.getD j 0 := by
  rw [List.getD_eq_getElem?_getD, List.getElem?_set, if_neg h, ← List.getD_eq_getElem?_getD]

theorem getD_replicate_zero (n j : ℕ) : (List.replicate n (0:ℚ)).getD j 0 = 0 := by
  rw [List.getD_eq_getElem?_getD, List.getElem?_replicate]
  split <;> rfl

theorem monthIndexOf_some_iff (now m : ℤ) (j : ℕ) (hj : j < 12) :
    monthIndexOf now m = some j ↔ m = now - 11 + j := by
  unfold monthIndexOf
  by_cases hw : now - 11 ≤ m ∧ m ≤ now
  · rw [if_pos hw]
    simp only [Option.some.injEq]
    omega
  · rw [if_neg hw]
    constructor
    · intro h
      simp at h
    · intro h
      exfalso
      apply hw
      omega

theorem monthIndexOf_elim (now m : ℤ) (j : ℕ) (h : monthIndexOf now m = some j) :
    j < 12 ∧ m = now - 11 + j := by
  unfold monthIndexOf at h
  by_cases hw : now - 11 ≤ m ∧ m ≤ now
  · rw [if_pos hw] at h
    simp only [Option.some.injEq] at h
    omega
  · rw [if_neg hw] at h
    simp at h

/-- The total `Math.abs(amount)` the monthly loop adds to the `expenses`
entry of the month `now - 11 + j`. -/
def monthExpenseSum (now : ℤ) (ts : List Transaction) (j : ℕ) : ℚ :=
  ((ts.filter (fun t => decide (t.date.getD now = now - 11 + j) && !isIncomeTx t)).map
    (fun t => |t.amount|)).sum

/-- The total `Math.abs(amount)` the monthly loop adds to the `savings`
entry of the month `now - 11 + j` — the income-classified transactions of
that month. -/
def monthIncomeSum (now : ℤ) (ts : List Transaction) (j : ℕ) : ℚ :=
  ((ts.filter (fun t => decide (t.date.getD now = now - 11 + j) && isIncomeTx t)).map
    (fun t => |t.amount|)).sum

theorem monthExpenseSum_cons (now : ℤ) (t : Transaction) (rest : List Transaction) (j : ℕ) :
    monthExpenseSum now (t :: rest) j =
      (if t.date.getD now = now - 11 + j ∧ isIncomeTx t = false then |t.amount| else 0) +
        monthExpenseSum now rest j := by
  unfold monthExpenseSum
  rw [List.filter_cons]
  by_cases h1 : t.date.getD now = now - 11 + j
  · cases h2 : isIncomeTx t
    · simp [h1, h2]
    · simp [h1, h2]
  · simp [h1]

theorem monthIncomeSum_cons (now : ℤ) (t : Transaction) (rest : List Transaction) (j : ℕ) :
    monthIncomeSum now (t :: rest) j =
      (if t.date.getD now = now - 11 + j ∧ isIncomeTx t = true then |t.amount| else 0) +
        monthIncomeSum now rest j := by
  unfold monthIncomeSum
  rw [List.filter_cons]
  by_cases h1 : t.date.getD now = now - 11 + j
  · cases h2 : isIncomeTx t
    · simp [h1, h2]
    · simp [h1, h2]
  · simp [h1]

theorem monthly_foldl_char (l : List Transaction) (now : ℤ) (acc : MonthlyData)
    (he : acc.expenses.length = 12) (hs : acc.savings.length = 12) :
    (List.foldl (monthlyStep now) acc l).expenses.length = 12 ∧
    (List.foldl (monthlyStep now) acc l).savings.length = 12 ∧
    ∀ j : ℕ, j < 12 →
      (List.foldl (monthlyStep now) acc l).expenses.getD j 0
        = acc.expenses.getD j 0 + monthExpenseSum now l j ∧
      (List.foldl (monthlyStep now) acc l).savings.getD j 0
        = acc.savings.getD j 0 + monthIncomeSum now l j := by
  induction l generalizing acc with
  | nil =>
    refine ⟨he, hs, fun j hj => ?_⟩
    constructor <;> simp [monthExpenseSum, monthIncomeSum]
  | cons t rest ih =>
    rw [List.foldl_cons]
    rcases hidx : monthIndexOf now (t.date.getD now) with _ | j'
    · have hstep : monthlyStep now acc t = acc := by
        simp [monthlyStep, hidx]
      rw [hstep]
      obtain ⟨hE, hS, hchar⟩ := ih acc he hs
      refine ⟨hE, hS, fun j hj => ?_⟩
      obtain ⟨h1, h2⟩ := hchar j hj
      have hne : t.date.getD now ≠ now - 11 + j := by
        intro hcontra
        have h3 := (monthIndexOf_some_iff now (t.date.getD now) j hj).mpr hcontra
        rw [hidx] at h3
        simp at h3
      rw [h1, h2, monthExpenseSum_cons, monthIncomeSum_cons, if_neg (by tauto),
        if_neg (by tauto)]
      constructor <;> ring
    · obtain ⟨hj', hm⟩ := monthIndexOf_elim now (t.date.getD now) j' hidx
      cases hinc : isIncomeTx t
      · have hstepE : (monthlyStep now acc t).expenses
            = acc.expenses.set j' (acc.expenses.getD j' 0 + |t.amount|) := by
          simp [monthlyStep, hidx, hinc]
        have hstepS : (monthlyStep now acc t).savings = acc.savings := by
          simp [monthlyStep, hidx, hinc]
        have he' : (monthlyStep now acc t).expenses.length = 12 := by
          rw [hstepE, List.length_set]
          exact he
        have hs' : (monthlyStep now acc t).savings.length = 12 := by
          rw [hstepS]
          exact hs
        obtain ⟨hE, hS, hchar⟩ := ih (monthlyStep now acc t) he' hs'
        refine ⟨hE, hS, fun j hj => ?_⟩
        obtain ⟨h1, h2⟩ := hchar j hj
        rw [h1, h2, hstepE, hstepS, monthExpenseSum_cons, monthIncomeSum_cons]
        constructor
        · by_cases hjj : j = j'
          · subst hjj
            rw [getD_set_self _ _ _ (by rw [he]; exact hj), if_pos ⟨hm, hinc⟩]
            ring
          · have hcond : ¬(t.date.getD now = now - 11 + (j:ℤ) ∧ isIncomeTx t = false) := by
              intro hc
              apply hjj
              have h3 : now - 11 + (j:ℤ) = now - 11 + (j':ℤ) := by rw [← hc.1, hm]
              omega
            rw [getD_set_other _ _ _ _ (fun hc => hjj hc.symm), if_neg hcond]
            ring
        · have hcond : ¬(t.date.getD now = now - 11 + (j:ℤ) ∧ isIncomeTx t = true) := by
            intro hc
            rw [hinc] at hc
            exact absurd hc.2 (by simp)
          rw [if_neg hcond]
          ring
      · have hstepS : (monthlyStep now acc t).savings
            = acc.savings.set j' (acc.savings.getD j' 0 + |t.amount|) := by
          simp [monthlyStep, hidx, hinc]
        have hstepE : (monthlyStep now acc t).expenses = acc.expenses := by
          simp [monthlyStep, hidx, hinc]
        have hs' : (monthlyStep now acc t).savings.length = 12 := by
          rw [hstepS, List.length_set]
          exact hs
        have he' : (monthlyStep now acc t).expenses.length = 12 := by
          rw [hstepE]
          exact he
        obtain ⟨hE, hS, hchar⟩ := ih (monthlyStep now acc t) he' hs'
        refine ⟨hE, hS, fun j hj => ?_⟩
        obtain ⟨h1, h2⟩ := hchar j hj
        rw [h1, h2, hstepE, hstepS, monthExpenseSum_cons, monthIncomeSum_cons]
        constructor
        · have hcond : ¬(t.date.getD now = now - 11 + (j:ℤ) ∧ isIncomeTx t = false) := by
            intro hc
            rw [hinc] at hc
            exact absurd hc.2 (by simp)
          rw [if_neg hcond]
          ring
        · by_cases hjj : j = j'
          · subst hjj
            rw [getD_set_self _ _ _ (by rw [hs]; exact hj), if_pos ⟨hm, hinc⟩]
            ring
          · have hcond : ¬(t.date.getD now = now - 11 + (j:ℤ) ∧ isIncomeTx t = true) := by
              intro hc
              apply hjj
              have h3 : now - 11 + (j:ℤ) = now - 11 + (j':ℤ) := by rw [← hc.1, hm]
              omega
            rw [getD_set_other _ _ _ _ (fun hc => hjj hc.symm), if_neg hcond]
            ring

/-! ## Small helpers for concrete evaluations -/

theorem ceil_eq_of (q : ℚ) (n : ℤ) (h1 : (n:ℚ) - 1 < q) (h2 : q ≤ (n:ℚ)) : ⌈q⌉ = n :=
  Int.ceil_eq_iff.mpr ⟨h1, h2⟩

theorem foldl_filterIncome_id (L : List JSStr) (m : List (JSStr × ℚ))
    (h : ∀ c ∈ L, truthyLookup m c = false) :
    L.foldl (fun acc c => if truthyLookup acc c then eraseKey acc c else acc) m = m := by
  induction L with
  | nil => rfl
  | cons c L ih =>
    rw [List.foldl_cons, h c (by simp), if_neg (by simp)]
    exact ih (fun c hc => h c (by simp [hc]))

theorem dashStep_cases (acc : List (JSStr × ℚ)) (t : Transaction) :
    dashStep acc t = acc ∨ ∃ k, dashStep acc t = upsert acc k |t.amount| := by
  unfold dashStep
  by_cases h1 : 0 ≤ t.amount
  · left
    exact if_pos h1
  · rw [if_neg h1]
    by_cases h2 : jsOrDefault t.category uncategorizedLabel ≠ [] ∧
        jsTrim (jsOrDefault t.category uncategorizedLabel) ≠ []
    · right
      exact ⟨_, if_pos h2⟩
    · left
      exact if_neg h2

theorem dash_foldl_values_nonneg (l : List Transaction) (acc : List (JSStr × ℚ))
    (hacc : ∀ p ∈ acc, 0 ≤ p.2) : ∀ p ∈ l.foldl dashStep acc, 0 ≤ p.2 := by
  induction l generalizing acc with
  | nil => exact hacc
  | cons t rest ih =>
    rw [List.foldl_cons]
    apply ih
    rcases dashStep_cases acc t with h | ⟨k, h⟩
    · rw [h]
      exact hacc
    · rw [h]
      exact upsert_values_nonneg acc k |t.amount| hacc (abs_nonneg _)

/-! ## Claim C4 — goal months-remaining -/

/-- C4 (amended): for every goal projection in `AIAssistant.js`, if
`monthlySavings > 0` then the reported `timeRemaining` is
`ceil((targetAmount - currentAmount) / monthlySavings)` with **no** floor
at 0 (an already-exceeded goal reports a negative number); if
`monthlySavings ≤ 0` the `Infinity` intermediate is converted by the
`isFinite` check into the non-numeric `'unknown'` sentinel, so a raw
`Infinity` is never returned. -/
theorem C4_months_remaining (targetAmount currentAmount monthlySavings : ℚ) :
    (0 < monthlySavings →
      goalTimeRemaining targetAmount currentAmount monthlySavings
        = .num ((⌈(targetAmount - currentAmount) / monthlySavings⌉ : ℤ) : ℚ)) ∧
    (monthlySavings ≤ 0 →
      goalTimeRemaining targetAmount currentAmount monthlySavings = .unknownSentinel) := by
  constructor
  · intro hs
    have hdiv : jsDiv (targetAmount - currentAmount) monthlySavings
        = .fin ((targetAmount - currentAmount) / monthlySavings) := if_pos (ne_of_gt hs)
    unfold goalTimeRemaining timeRemainingRaw
    rw [if_pos hs, hdiv]
    rfl
  · intro hs
    unfold goalTimeRemaining timeRemainingRaw
    rw [if_neg (not_lt.mpr hs)]

/-- C4 witness: a solvent goal (`monthlySavings = 100 > 0`) gets the
numeric ceiling. -/
theorem C4_months_remaining_witness :
    (0:ℚ) < 100 ∧
      goalTimeRemaining 1000 200 100 = .num ((⌈((1000:ℚ) - 200) / 100⌉ : ℤ) : ℚ) :=
  ⟨by norm_num, (C4_months_remaining 1000 200 100).1 (by norm_num)⟩

/-- C4 counterexample: a goal already past its target (`current 250 >
target 100`) with positive savings reports `-3` months remaining — the
claim's "floored at 0, never a negative number" fails on the code. -/
theorem C4_negative_counterexample :
    goalTimeRemaining 100 250 50 = .num (-3) ∧ ((-3:ℚ) < 0) := by
  constructor
  · have hq : ((100:ℚ) - 250) / 50 = -3 := by norm_num
    have hc : (⌈(-3 : ℚ)⌉ : ℤ) = -3 := ceil_eq_of _ _ (by norm_num) (by norm_num)
    norm_num [goalTimeRemaining, timeRemainingRaw, jsCeil, jsDiv, hq, hc]
  · norm_num

/-! ## Claim C5 — goal progress percentage -/

/-- C5 (amended): the Goals-page `calculateProgress` is
`min(100, round(100 * currentAmount / targetAmount))` — clamped **above**
at 100 only, so the result lies in `[0, 100]` whenever
`currentAmount ≥ 0` but is negative for a negative `currentAmount`; the
`AIAssistant.js` per-goal `progress` applies no clamp at all. -/
theorem C5_goal_progress (currentAmount targetAmount : ℚ) (ht : 0 < targetAmount) :
    calculateProgress currentAmount targetAmount
        = .fin (min 100 ((⌊currentAmount / targetAmount * 100 + 1/2⌋ : ℤ) : ℚ)) ∧
    (0 ≤ currentAmount → ∃ p : ℚ,
      calculateProgress currentAmount targetAmount = .fin p ∧ 0 ≤ p ∧ p ≤ 100) ∧
    aiGoalProgress currentAmount targetAmount
        = .fin ((⌊currentAmount / targetAmount * 100 + 1/2⌋ : ℤ) : ℚ) := by
  have hdiv : jsDiv currentAmount targetAmount = .fin (currentAmount / targetAmount) :=
    if_pos (ne_of_gt ht)
  refine ⟨?_, ?_, ?_⟩
  · unfold calculateProgress
    rw [hdiv]
    rfl
  · intro hc
    refine ⟨min 100 ((⌊currentAmount / targetAmount * 100 + 1/2⌋ : ℤ) : ℚ), ?_, ?_, min_le_left _ _⟩
    · unfold calculateProgress
      rw [hdiv]
      rfl
    · apply le_min (by norm_num)
      have hx : (0:ℚ) ≤ currentAmount / targetAmount * 100 + 1/2 := by positivity
      have hfl : (0:ℤ) ≤ ⌊currentAmount / targetAmount * 100 + 1/2⌋ :=
        Int.le_floor.mpr (by exact_mod_cast hx)
      exact_mod_cast hfl
  · unfold aiGoalProgress
    rw [hdiv]
    rfl

/-- C5 witness: `current 200 / target 1000` yields the clamped rounded
percentage form, and for nonnegative input the value is within bounds. -/
theorem C5_goal_progress_witness :
    (0:ℚ) < 1000 ∧
      calculateProgress 200 1000 = .fin (min 100 ((⌊(200:ℚ) / 1000 * 100 + 1/2⌋ : ℤ) : ℚ)) :=
  ⟨by norm_num, (C5_goal_progress 200 1000 (by norm_num)).1⟩

/-- C5 counterexample: `currentAmount = -50, targetAmount = 100` is
reported as `-50`, outside the claimed `[0, 100]` range — the code has no
lower clamp. -/
theorem C5_clamp_counterexample :
    calculateProgress (-50) 100 = .fin (-50) ∧ ((-50:ℚ) < 0) := by
  constructor
  · norm_num [calculateProgress, jsMin, jsRound, jsMul100, jsDiv]
  · norm_num

/-! ## Claim C6 — budget utilization percentage -/

/-- C6 (amended): the Budget-page `calculateUsage` returns 0 for a falsy
`spent`, and otherwise `min(100, round(100 * spent / budgeted))` — clamped
**above** at 100, the opposite of the claimed `[0, +∞)` clamp; with
`budgeted = 0` and a nonzero `spent` the division **is** performed,
yielding `±Infinity` (100 after the min for positive spent, `-Infinity`
for negative). The `AIAssistant.js` budget `percentage` is the unrounded,
unclamped `spent / budgeted * 100` when `budgeted > 0` and 0 otherwise. -/
theorem C6_budget_percentage (spent amount : ℚ) :
    (spent = 0 → calculateUsage spent amount = .fin 0) ∧
    (spent ≠ 0 → amount ≠ 0 →
      calculateUsage spent amount = .fin (min 100 ((⌊spent / amount * 100 + 1/2⌋ : ℤ) : ℚ))) ∧
    (0 < spent → amount = 0 → calculateUsage spent amount = .fin 100) ∧
    (spent < 0 → amount = 0 → calculateUsage spent amount = .negInf) ∧
    (0 < amount → aiBudgetPercentage spent amount = spent / amount * 100) ∧
    (amount ≤ 0 → aiBudgetPercentage spent amount = 0) := by
  refine ⟨?_, ?_, ?_, ?_, ?_, ?_⟩
  · intro hs
    exact if_pos hs
  · intro hs ha
    have hdiv : jsDiv spent amount = .fin (spent / amount) := if_pos ha
    unfold calculateUsage
    rw [if_neg hs, hdiv]
    rfl
  · intro hs ha
    have hdiv : jsDiv spent amount = .posInf := by
      unfold jsDiv
      rw [if_neg (by simp [ha]), if_pos hs]
    unfold calculateUsage
    rw [if_neg (ne_of_gt hs), hdiv]
    rfl
  · intro hs ha
    have hdiv : jsDiv spent amount = .negInf := by
      unfold jsDiv
      rw [if_neg (by simp [ha]), if_neg (not_lt.mpr (le_of_lt hs)), if_pos hs]
    unfold calculateUsage
    rw [if_neg (ne_of_lt hs), hdiv]
    rfl
  · intro ha
    exact if_pos ha
  · intro ha
    exact if_neg (not_lt.mpr ha)

/-- C6 witness: the ordinary case `spent 80 / budgeted 100` takes the
rounded-and-min-clamped form. -/
theorem C6_budget_percentage_witness :
    (80:ℚ) ≠ 0 ∧ (100:ℚ) ≠ 0 ∧
      calculateUsage 80 100 = .fin (min 100 ((⌊(80:ℚ) / 100 * 100 + 1/2⌋ : ℤ) : ℚ)) :=
  ⟨by norm_num, by norm_num, (C6_budget_percentage 80 100).2.1 (by norm_num) (by norm_num)⟩

/-- C6 counterexample: `spent 200 / budgeted 100` is reported as 100, not
the claimed unclamped `round(100 * 200 / 100) = 200` — the code clamps
above at 100. -/
theorem C6_upper_clamp_counterexample :
    calculateUsage 200 100 = .fin 100 ∧
      ((⌊(200:ℚ) / 100 * 100 + 1/2⌋ : ℤ) : ℚ) = 200 ∧ (100:ℚ) ≠ 200 := by
  refine ⟨?_, by norm_num, by norm_num⟩
  norm_num [calculateUsage, jsMin, jsRound, jsMul100, jsDiv]

/-! ## Claim C7 — threshold boundaries -/

/-- C7 (amended): the progress-bar color logic transitions **strictly
above** the thresholds: the `ok` color (`success.main`) for
`percentage ≤ 70`, `warning.main` for `70 < percentage ≤ 85`, and the
`over` color (`error.main`) for `percentage > 85` — so at exactly 70 the
bar is still the `ok` color and at exactly 85 still the warning color,
not the inclusive-boundary rule the claim states. -/
theorem C7_threshold_boundaries (p : ℚ) :
    (barColor (.fin p) = "success.main" ↔ p ≤ 70) ∧
    (barColor (.fin p) = "warning.main" ↔ 70 < p ∧ p ≤ 85) ∧
    (barColor (.fin p) = "error.main" ↔ 85 < p) := by
  have hne1 : ("error.main" : String) ≠ "success.main" := by decide
  have hne2 : ("error.main" : String) ≠ "warning.main" := by decide
  have hne3 : ("warning.main" : String) ≠ "success.main" := by decide
  simp only [barColor, jsGtConst]
  by_cases h85 : 85 < p
  · rw [if_pos (decide_eq_true h85)]
    refine ⟨⟨fun h => absurd h hne1, fun h => absurd h85 (by linarith)⟩,
      ⟨fun h => absurd h hne2, fun h => absurd h85 (by linarith [h.2])⟩,
      ⟨fun _ => h85, fun _ => rfl⟩⟩
  · rw [if_neg (by simp [decide_eq_false h85])]
    by_cases h70 : 70 < p
    · rw [if_pos (decide_eq_true h70)]
      refine ⟨⟨fun h => absurd h hne3, fun h => absurd h70 (by linarith)⟩,
        ⟨fun _ => ⟨h70, le_of_not_lt h85⟩, fun _ => rfl⟩,
        ⟨fun h => absurd h hne2.symm, fun h => absurd h h85⟩⟩
    · rw [if_neg (by simp [decide_eq_false h70])]
      refine ⟨⟨fun _ => le_of_not_lt h70, fun _ => rfl⟩,
        ⟨fun h => absurd h hne3.symm, fun h => absurd h.1 h70⟩,
        ⟨fun h => absurd h (by decide : ("success.main":String) ≠ "error.main"),
          fun h => absurd h h85⟩⟩

/-- C7 counterexample: at percentage exactly 70 the spec's status rule
says `warning`, but the progress-bar color logic still shows the `ok`
color (`success.main`) — the code's boundary is strict. -/
theorem C7_boundary_counterexample :
    barColor (.fin 70) = "success.main" ∧ specStatus 70 = "warning" ∧
      ("success.main" : String) ≠ "warning.main" := by
  refine ⟨?_, ?_, by decide⟩
  · norm_num [barColor, jsGtConst]
  · norm_num [specStatus]

/-! ## Claim C1 — income classification -/

/-- C1 (amended): only the `Analysis.js` aggregation classifies a
transaction as income by its normalized category: a transaction whose
normalized category is `'income'` is excluded from `expensesByCategory`
and sent to the income (`savings`) series regardless of sign. The
Dashboard aggregation instead classifies by the **sign** of the amount —
a negative-amount transaction is accumulated as an expense even when its
normalized category is `'income'` — and the `AIAssistant.js` totals
classify by the separate `type` field, counting nothing for a transaction
without one. -/
theorem C1_income_classification (t : Transaction) (c : JSStr)
    (hc : t.category = some c) (hinc : normalizeCat c = incomeLabel) :
    expensesByCategory [t] = [] ∧
    isIncomeTx t = true ∧
    (t.amount < 0 →
      dashBreakdownRaw [t] = [(c, |t.amount|)] ∧ dashTotalSpending [t] = |t.amount|) ∧
    (t.type = none → aiIncomeTotal [t] = 0 ∧ aiExpensesTotal [t] = 0) := by
  have htr : jsTrim c ≠ [] := by
    intro h
    have h2 : normalizeCat c = [] := by rw [normalizeCat, h]; rfl
    rw [h2] at hinc
    exact absurd hinc (by decide)
  have hcne : c ≠ [] := by
    intro h
    apply htr
    rw [h]
    rfl
  refine ⟨?_, ?_, ?_, ?_⟩
  · have hk : analysisKeeps t = false := by
      simp [analysisKeeps, hc, hinc]
    simp [expensesByCategory, List.filter_cons, hk]
  · simp [isIncomeTx, hc, hinc]
  · intro hneg
    have hdef : jsOrDefault t.category uncategorizedLabel = c := by
      rw [hc]
      simp [jsOrDefault, hcne]
    constructor
    · have hstep : dashStep [] t = upsert [] c |t.amount| := by
        unfold dashStep
        rw [if_neg (not_le.mpr hneg)]
        simp only [hdef]
        rw [if_pos ⟨hcne, htr⟩]
      unfold dashBreakdownRaw
      rw [List.foldl_cons, hstep]
      rfl
    · simp [dashTotalSpending, List.filter_cons, hneg]
  · intro htype
    constructor <;> simp [aiIncomeTotal, aiExpensesTotal, List.filter_cons, htype]

/-- C1 witness: a negative-amount transaction labeled `' INCOME '`
(odd casing and spacing) normalizes to `income` and is excluded from the
Analysis expense breakdown. -/
theorem C1_income_classification_witness :
    (Transaction.mk (-7) (some (str " INCOME ")) none none).category = some (str " INCOME ") ∧
    normalizeCat (str " INCOME ") = incomeLabel ∧
    expensesByCategory [Transaction.mk (-7) (some (str " INCOME ")) none none] = [] :=
  ⟨rfl, by decide, (C1_income_classification _ _ rfl (by decide)).1⟩

/-- C1 counterexample: a transaction with normalized category `'income'`
but a negative amount is accumulated as an **expense** by the Dashboard
aggregation (keyed under `'income'`, counted in total spending) — the
classification does depend on the sign, refuting the claim. -/
theorem C1_sign_counterexample :
    normalizeCat (str "income") = incomeLabel ∧
    dashBreakdownRaw [⟨-5, some (str "income"), none, none⟩] = [(str "income", 5)] ∧
    dashTotalSpending [⟨-5, some (str "income"), none, none⟩] = 5 := by
  refine ⟨by decide, ?_, ?_⟩
  · have h1 : (str "income" : JSStr) ≠ [] := by decide
    have h2 : jsTrim (str "income") ≠ [] := by decide
    norm_num [dashBreakdownRaw, dashStep, jsOrDefault, upsert, h1, h2]
  · norm_num [dashTotalSpending, List.filter_cons]

/-! ## Claim C2 — breakdown sum equals total spending -/

/-- C2 (amended): for the Dashboard aggregation, the sum of the
`categoryBreakdown` values equals `totalSpending` (the sum of absolute
amounts of the negative-amount transactions) **provided** every
negative-amount transaction's category, after the falsy-to-
`'Uncategorized'` defaulting, does not trim to the empty string. A
whitespace-only category is dropped from the breakdown while its amount
still counts toward `totalSpending`, breaking the equality. -/
theorem C2_breakdown_sum (ts : List Transaction)
    (h : ∀ t ∈ ts, t.amount < 0 → jsTrim (jsOrDefault t.category uncategorizedLabel) ≠ []) :
    sumValues (dashAnalysis ts).2 = (dashAnalysis ts).1 := by
  have hsum := dash_sum_eq_total ts h
  show sumValues (dashCategoryBreakdown ts) = dashTotalSpending ts
  by_cases hraw : dashBreakdownRaw ts = []
  · have h0 : dashTotalSpending ts = 0 := by
      rw [← hsum, hraw]
      rfl
    by_cases hts : ts = []
    · subst hts
      rfl
    · have hbd : dashCategoryBreakdown ts = [(noCategoriesLabel, 0)] := by
        simp [dashCategoryBreakdown, hraw, hts]
      rw [hbd, h0]
      simp [sumValues]
  · have hbd : dashCategoryBreakdown ts = dashBreakdownRaw ts := by
      simp [dashCategoryBreakdown, hraw]
    rw [hbd, hsum]

/-- C2 witness: with one well-categorized expense the invariant holds. -/
theorem C2_breakdown_sum_witness :
    (∀ t ∈ [Transaction.mk (-50) (some (str "Food")) none none], t.amount < 0 →
      jsTrim (jsOrDefault t.category uncategorizedLabel) ≠ []) ∧
    sumValues (dashAnalysis [Transaction.mk (-50) (some (str "Food")) none none]).2
      = (dashAnalysis [Transaction.mk (-50) (some (str "Food")) none none]).1 := by
  have hyp : ∀ t ∈ [Transaction.mk (-50) (some (str "Food")) none none], t.amount < 0 →
      jsTrim (jsOrDefault t.category uncategorizedLabel) ≠ [] := by
    intro t ht
    simp only [List.mem_singleton] at ht
    subst ht
    intro hlt
    decide
  exact ⟨hyp, C2_breakdown_sum _ hyp⟩

/-- C2 counterexample: a single `-50` transaction whose category is the
whitespace string `' '` yields `totalSpending = 50` but a breakdown
(`{'No Categories': 0}`) whose values sum to 0. -/
theorem C2_whitespace_counterexample :
    sumValues (dashAnalysis [⟨-50, some (str " "), none, none⟩]).2 = 0 ∧
    (dashAnalysis [⟨-50, some (str " "), none, none⟩]).1 = 50 ∧ (0:ℚ) ≠ 50 := by
  have hnil : (str " " : JSStr) ≠ [] := by decide
  have htr : jsTrim (str " ") = [] := by decide
  have hraw : dashBreakdownRaw [⟨-50, some (str " "), none, none⟩] = [] := by
    norm_num [dashBreakdownRaw, dashStep, jsOrDefault, hnil, htr]
  refine ⟨?_, ?_, by norm_num⟩
  · norm_num [dashAnalysis, dashCategoryBreakdown, hraw, sumValues]
  · norm_num [dashAnalysis, dashTotalSpending, List.filter_cons]

/-! ## Claim C3 — no income key in the breakdown -/

/-- C3 (amended): in the `Analysis.js` aggregation, no key of
`expensesByCategory` has normalized form `'income'` (keys are stored
normalized and `'income'` is filtered before accumulation). The Dashboard
breakdown does **not** have this property: its income-filter removes only
the seven exact-cased labels, so an income key of different casing or
spacing survives. -/
theorem C3_analysis_no_income_key (ts : List Transaction) (k : JSStr)
    (hk : k ∈ (expensesByCategory ts).map Prod.fst) : normalizeCat k ≠ incomeLabel :=
  expensesByCategory_keys ts k hk

/-- C3 witness: the key produced for a `'Food'` expense is `'food'`,
whose normalized form is not `'income'`. -/
theorem C3_analysis_no_income_key_witness :
    str "food" ∈ (expensesByCategory [Transaction.mk (-50) (some (str "Food")) none none]).map
      Prod.fst ∧
    normalizeCat (str "food") ≠ incomeLabel := by
  have hs1 : normalizeCat (str "Food") = str "food" := by decide
  have hs2 : (str "food" : JSStr) ≠ incomeLabel := by decide
  have hs3 : (str "food" : JSStr) ≠ [] := by decide
  have hk : analysisKeeps (Transaction.mk (-50) (some (str "Food")) none none) = true := by
    simp [analysisKeeps, hs1, hs2]
  have hmem : str "food" ∈ (expensesByCategory
      [Transaction.mk (-50) (some (str "Food")) none none]).map Prod.fst := by
    simp [expensesByCategory, hk, analysisKey, hs1, hs3, upsert]
  exact ⟨hmem, C3_analysis_no_income_key _ _ hmem⟩

/-- C3 counterexample: a `-50` transaction labeled `'INCOME'` puts the
key `'INCOME'` — normalized form `'income'` — into the Dashboard
breakdown, and the exact-cased income filter does not remove it. -/
theorem C3_dashboard_counterexample :
    filterIncome (dashCategoryBreakdown [⟨-50, some (str "INCOME"), none, none⟩])
      = [(str "INCOME", 50)] ∧
    normalizeCat (str "INCOME") = incomeLabel := by
  have h1 : (str "INCOME" : JSStr) ≠ [] := by decide
  have h2 : jsTrim (str "INCOME") ≠ [] := by decide
  have hraw : dashBreakdownRaw [⟨-50, some (str "INCOME"), none, none⟩]
      = [(str "INCOME", 50)] := by
    norm_num [dashBreakdownRaw, dashStep, jsOrDefault, upsert, h1, h2]
  have hbd : dashCategoryBreakdown [⟨-50, some (str "INCOME"), none, none⟩]
      = [(str "INCOME", 50)] := by
    norm_num [dashCategoryBreakdown, hraw]
  refine ⟨?_, by decide⟩
  rw [hbd]
  unfold filterIncome
  apply foldl_filterIncome_id
  intro c hc
  fin_cases hc <;> decide

/-! ## Claim C8 — empty input and the placeholder key -/

/-- C8 (amended): with an empty transaction set the Dashboard aggregation
does return `totalSpending = 0` and `categoryBreakdown = {}`; but for a
non-empty set whose manual breakdown is empty (no categorized expense
transactions) it fabricates the placeholder entry
`{'No Categories': 0}` rather than leaving the breakdown empty. -/
theorem C8_empty_aggregation :
    dashAnalysis ([] : List Transaction) = (0, []) ∧
    ∀ ts : List Transaction, ts ≠ [] → dashBreakdownRaw ts = [] →
      dashCategoryBreakdown ts = [(noCategoriesLabel, 0)] := by
  constructor
  · rfl
  · intro ts hts hraw
    simp [dashCategoryBreakdown, hraw, hts]

/-- C8 witness: a single income-only (positive) transaction leaves the
manual breakdown empty and triggers the placeholder. -/
theorem C8_empty_aggregation_witness :
    ([Transaction.mk 1000 (some (str "Income")) none none] : List Transaction) ≠ [] ∧
    dashBreakdownRaw [Transaction.mk 1000 (some (str "Income")) none none] = [] ∧
    dashCategoryBreakdown [Transaction.mk 1000 (some (str "Income")) none none]
      = [(noCategoriesLabel, 0)] := by
  have hraw : dashBreakdownRaw [Transaction.mk 1000 (some (str "Income")) none none] = [] := by
    norm_num [dashBreakdownRaw, dashStep]
  exact ⟨by simp, hraw, C8_empty_aggregation.2 _ (by simp) hraw⟩

/-- C8 counterexample: the input with one positive transaction makes the
Dashboard insert the fabricated `'No Categories'` key — refuting "never
inserts a fabricated placeholder category for any input". -/
theorem C8_placeholder_counterexample :
    dashCategoryBreakdown [⟨1000, some (str "Income"), none, none⟩]
      = [(noCategoriesLabel, 0)] ∧ noCategoriesLabel = str "No Categories" := by
  have hraw : dashBreakdownRaw [⟨1000, some (str "Income"), none, none⟩] = [] := by
    norm_num [dashBreakdownRaw, dashStep]
  refine ⟨?_, rfl⟩
  norm_num [dashCategoryBreakdown, hraw]

/-! ## Claim C9 — trailing-12-month series -/

/-- C9 (confirmed): the month-bucketed series covers exactly the twelve
calendar months `now-11 … now` (the labels list has length 12 and its
`j`-th label denotes month `now - 11 + j`), and for each such month the
`expenses` entry is the sum of absolute amounts of that month's
non-income-category transactions while the `savings` entry is the sum of
absolute amounts of that month's income-category transactions — the
per-month income sum. Entries of months with no transactions stay 0
(the arrays are zero-initialized), not absent. -/
theorem C9_monthly_series (now : ℤ) (ts : List Transaction) (j : ℕ) (hj : j < 12) :
    (monthsList now).length = 12 ∧
    (monthsList now).getD j 0 = now - 11 + j ∧
    (monthlyTotals now ts).expenses.length = 12 ∧
    (monthlyTotals now ts).savings.length = 12 ∧
    (monthlyTotals now ts).expenses.getD j 0 = monthExpenseSum now ts j ∧
    (monthlyTotals now ts).savings.getD j 0 = monthIncomeSum now ts j := by
  obtain ⟨hE, hS, hchar⟩ := monthly_foldl_char ts now
    ⟨List.replicate 12 0, List.replicate 12 0, List.replicate 12 0⟩ (by simp) (by simp)
  obtain ⟨h1, h2⟩ := hchar j hj
  refine ⟨by rw [monthsList, List.length_map, List.length_range], ?_, hE, hS, ?_, ?_⟩
  · rw [monthsList, List.getD_eq_getElem?_getD, List.getElem?_map, List.getElem?_range hj]
    rfl
  · unfold monthlyTotals
    rw [h1]
    simp only [getD_replicate_zero, zero_add]
  · unfold monthlyTotals
    rw [h2]
    simp only [getD_replicate_zero, zero_add]

/-- C9 witness: a concrete `now` and one expense dated in the oldest
window month. -/
theorem C9_monthly_series_witness :
    (0:ℕ) < 12 ∧
    (monthlyTotals 24305 [Transaction.mk (-50) (some (str "Food")) none (some 24294)]).expenses.getD
        0 0
      = monthExpenseSum 24305 [Transaction.mk (-50) (some (str "Food")) none (some 24294)] 0 ∧
    (monthlyTotals 24305 [Transaction.mk (-50) (some (str "Food")) none (some 24294)]).savings.getD
        0 0
      = monthIncomeSum 24305 [Transaction.mk (-50) (some (str "Food")) none (some 24294)] 0 :=
  ⟨by norm_num,
    (C9_monthly_series 24305 [Transaction.mk (-50) (some (str "Food")) none (some 24294)] 0
      (by norm_num)).2.2.2.2⟩

/-! ## Claim C10 — breakdown values are non-negative -/

/-- C10 (confirmed): every value stored in the Analysis
`expensesByCategory` map and in the Dashboard `category_breakdown` is
non-negative — amounts are accumulated as `Math.abs` values (and the
placeholder value is 0). -/
theorem C10_breakdown_nonneg (ts : List Transaction) :
    (∀ p ∈ expensesByCategory ts, 0 ≤ p.2) ∧
    (∀ p ∈ dashCategoryBreakdown ts, 0 ≤ p.2) := by
  constructor
  · exact upsert_foldl_values_nonneg (ts.filter analysisKeeps) []
      (fun t => analysisKey (t.category.getD [])) (by simp)
  · by_cases hraw : dashBreakdownRaw ts = []
    · by_cases hts : ts = []
      · subst hts
        intro p hp
        have hbd : dashCategoryBreakdown ([] : List Transaction) = [] := rfl
        rw [hbd] at hp
        simp at hp
      · have hbd : dashCategoryBreakdown ts = [(noCategoriesLabel, 0)] := by
          simp [dashCategoryBreakdown, hraw, hts]
        rw [hbd]
        intro p hp
        simp only [List.mem_singleton] at hp
        rw [hp]
    · have hbd : dashCategoryBreakdown ts = dashBreakdownRaw ts := by
        simp [dashCategoryBreakdown, hraw]
      rw [hbd]
      exact dash_foldl_values_nonneg ts [] (by simp)

/-- C10 witness: the `'food'` entry built from a `-50` expense stores the
non-negative value 50. -/
theorem C10_breakdown_nonneg_witness :
    (str "food", (50:ℚ)) ∈
      expensesByCategory [Transaction.mk (-50) (some (str "Food")) none none] ∧
    (0:ℚ) ≤ ((str "food", (50:ℚ))).2 := by
  have hs1 : normalizeCat (str "Food") = str "food" := by decide
  have hs2 : (str "food" : JSStr) ≠ incomeLabel := by decide
  have hs3 : (str "food" : JSStr) ≠ [] := by decide
  have hk : analysisKeeps (Transaction.mk (-50) (some (str "Food")) none none) = true := by
    simp [analysisKeeps, hs1, hs2]
  have hmem : (str "food", (50:ℚ)) ∈
      expensesByCategory [Transaction.mk (-50) (some (str "Food")) none none] := by
    norm_num [expensesByCategory, hk, analysisKey, hs1, hs3, upsert]
  exact ⟨hmem, (C10_breakdown_nonneg _).1 _ hmem⟩
